import Mathlib

set_option maxRecDepth 10000

/-!
Verification of the live market-data streaming and OHLCV candle-aggregation
engine of the trading dashboard (LiveChartComponent and the market-data
component).  The TypeScript code is shallowly embedded: JavaScript numbers
that can be `NaN` are modelled by `JsNum` (a rational or `nan`); timestamps
are modelled as already-parsed epoch milliseconds (`Option Int`, `none` when
the stored raw timestamp field is missing/empty, in which case the code falls
back to `Date.now()` at aggregation time); the React component's state and
its event handlers are modelled as a state machine with explicit state
passing.
-/

/-- A JavaScript number as it flows through the chart pipeline: either a
real (rational) value or `NaN` (the result of `parseFloat` on a non-numeric
string). -/
inductive JsNum where
  | nan : JsNum
  | num : ℚ → JsNum
deriving DecidableEq, Repr

/-- `Math.max` on JavaScript numbers: `NaN` if either argument is `NaN`. -/
def jmax : JsNum → JsNum → JsNum
  | JsNum.nan, _ => JsNum.nan
  | _, JsNum.nan => JsNum.nan
  | JsNum.num a, JsNum.num b => JsNum.num (max a b)

/-- `Math.min` on JavaScript numbers: `NaN` if either argument is `NaN`. -/
def jmin : JsNum → JsNum → JsNum
  | JsNum.nan, _ => JsNum.nan
  | _, JsNum.nan => JsNum.nan
  | JsNum.num a, JsNum.num b => JsNum.num (min a b)

/-- The JavaScript `<=` comparison on numbers: any comparison with `NaN`
is `false`. -/
def jsLe : JsNum → JsNum → Bool
  | JsNum.nan, _ => false
  | _, JsNum.nan => false
  | JsNum.num a, JsNum.num b => decide (a ≤ b)

/-- The JavaScript coercion `parseFloat(v) || 0` applied to a volume field:
a non-numeric (`NaN`) or zero value becomes `0`. -/
def jsOrZero : JsNum → ℚ
  | JsNum.nan => 0
  | JsNum.num q => if q = 0 then 0 else q

/-- `interface TickData` of LiveChartComponent.  `price` is the stored
result of `parseFloat(data.price)` (possibly `NaN`); `volume` is the stored
result of `parseFloat(data.volume) || 0` (always a real number); `timestamp`
is the stored timestamp string, embedded as its parsed epoch-millisecond
value, `none` when the stored field is missing/empty (falsy). -/
structure TickData where
  price : JsNum
  volume : ℚ
  timestamp : Option Int
  symbol : String
  exchange : String
  stock_name : Option String := none
deriving DecidableEq, Repr

/-- `interface CandleData` of LiveChartComponent: `time` is the bucket start
in epoch seconds. -/
structure CandleData where
  time : Int
  «open» : JsNum
  high : JsNum
  low : JsNum
  close : JsNum
  volume : ℚ
deriving DecidableEq, Repr

/-- `getIntervalMs`: milliseconds per display interval, with the switch's
default branch returning one minute. -/
def getIntervalMs (interval : String) : Int :=
  if interval = "1minute" then 60 * 1000
  else if interval = "5minute" then 5 * 60 * 1000
  else if interval = "30minute" then 30 * 60 * 1000
  else if interval = "1day" then 24 * 60 * 60 * 1000
  else 60 * 1000

/-- `new Date(tick.timestamp || Date.now()).getTime()`: the tick's own
timestamp when present, otherwise the wall-clock time `now` at which the
aggregation pass runs. -/
def tickTimestampMs (now : Int) (t : TickData) : Int :=
  match t.timestamp with
  | some v => v
  | none => now

/-- `Math.floor(timestamp / intervalMs) * intervalMs`: the bucket key a tick
is assigned to (`Math.floor` of a real quotient is floor division). -/
def bucketKey (intervalMs : Int) (now : Int) (t : TickData) : Int :=
  Int.fdiv (tickTimestampMs now t) intervalMs * intervalMs

/-- The candle created when a tick opens a fresh bucket (`aggregated[intervalKey]`
is unset): `time = Math.floor(intervalKey / 1000)`, all four prices the
tick's price, volume `tick.volume || 0` (identity on the stored rational
volume). -/
def newCandle (intervalKey : Int) (t : TickData) : CandleData :=
  { time := Int.fdiv intervalKey 1000
    «open» := t.price
    high := t.price
    low := t.price
    close := t.price
    volume := t.volume }

/-- The in-place update of an existing bucket's candle by one more tick:
`high = Math.max(high, price)`, `low = Math.min(low, price)`,
`close = price`, `volume += tick.volume || 0`. -/
def updateCandle (c : CandleData) (t : TickData) : CandleData :=
  { c with
    high := jmax c.high t.price
    low := jmin c.low t.price
    close := t.price
    volume := c.volume + t.volume }

/-- The bucket table (`const aggregated: { [key: number]: CandleData }`)
embedded as an association list in insertion order: update the candle stored
under `k` if present, otherwise append a fresh entry. -/
def upsertBucket : List (Int × CandleData) → Int → TickData → List (Int × CandleData)
  | [], k, t => [(k, newCandle k t)]
  | (k', c) :: rest, k, t =>
    if k' = k then (k', updateCandle c t) :: rest
    else (k', c) :: upsertBucket rest k t

/-- One iteration of the `ticks.forEach` body of `aggregateTicks`. -/
def insertTick (intervalMs : Int) (now : Int) (acc : List (Int × CandleData))
    (t : TickData) : List (Int × CandleData) :=
  upsertBucket acc (bucketKey intervalMs now t) t

/-- `aggregateTicks(ticks, interval)`: group the ticks of the buffer by
bucket key, build each bucket's candle in arrival order, and return the
candles sorted ascending by `time`.  `Object.values(aggregated).sort((a, b)
=> a.time - b.time)` is a stable ascending sort by `time`, embedded as a
stable insertion sort by the same key; `now` is the wall clock used only
for ticks whose stored timestamp is missing. -/
def aggregateTicks (now : Int) (ticks : List TickData) (interval : String) :
    List CandleData :=
  if ticks.length = 0 then []
  else
    let intervalMs := getIntervalMs interval
    let aggregated := ticks.foldl (insertTick intervalMs now) []
    List.insertionSort (fun a b => a.time ≤ b.time) (aggregated.map Prod.snd)

/-! ## Specification-side rendering of the aggregation claim

`specCandle` and `specAggregate` follow the claim's words — one candle per
non-empty bucket, in ascending `bucketStart` order, `open`/`close` from the
first/last tick of the bucket, `high`/`low` the extremes, `volume` the sum —
except that first/last are taken in arrival order, which is what the code's
single forward pass computes. -/

/-- The candle the claim describes for a bucket whose ticks, in arrival
order, are `t0 :: rest`: `open` the first tick's price, `close` the last
tick's price, `high`/`low` the running `Math.max`/`Math.min` of all prices,
`volume` the sum of the volumes. -/
def specCandle (intervalKey : Int) (t0 : TickData) (rest : List TickData) :
    CandleData :=
  { time := Int.fdiv intervalKey 1000
    «open» := t0.price
    high := (rest.map TickData.price).foldl jmax t0.price
    low := (rest.map TickData.price).foldl jmin t0.price
    close := (rest.map TickData.price).getLastD t0.price
    volume := t0.volume + (rest.map TickData.volume).sum }

/-- The candle the claim associates with bucket key `k`: the `specCandle`
of the ticks assigned to `k`, in arrival order.  The `[]` branch is
unreachable (`specAggregate` only applies this to keys that occur in the
buffer). -/
def specBucketCandle (intervalMs now : Int) (ticks : List TickData) (k : Int) :
    CandleData :=
  match ticks.filter (fun t => bucketKey intervalMs now t = k) with
  | [] => { time := Int.fdiv k 1000, «open» := JsNum.nan, high := JsNum.nan,
            low := JsNum.nan, close := JsNum.nan, volume := 0 }
  | t :: rest => specCandle k t rest

/-- Specification-side aggregation: the distinct bucket keys of the buffer
in ascending order, each mapped to the candle of its (arrival-ordered)
bucket. -/
def specAggregate (now : Int) (ticks : List TickData) (interval : String) :
    List CandleData :=
  let intervalMs := getIntervalMs interval
  let keys := List.insertionSort (fun a b => a ≤ b)
    ((ticks.map (bucketKey intervalMs now)).dedup)
  keys.map (specBucketCandle intervalMs now ticks)

/-- Proof helper: lookup of a bucket key in the bucket association list. -/
def assocFind (k : Int) : List (Int × CandleData) → Option CandleData
  | [] => none
  | (k', c) :: rest => if k' = k then some c else assocFind k rest

/-! ## The component state machine (LiveChartComponent, part_008)

React state hooks, the websocket handlers, the `disconnectWebSocket`
callback and the auto-connect effect are embedded as explicit state passing.
The derived `aggregatedData` state (recomputed by a `useEffect` whenever
`rawTicks` or the display interval changes) is re-established inside every
transition that changes either. -/

/-- `userData.credentials`. -/
structure Credentials where
  api_key : String
  api_secret : String
  session_token : String
deriving DecidableEq, Repr

/-- The subscription message LiveChartComponent (part_008) sends in
`ws.onopen`: credentials, instrument identity, and the display interval. -/
structure SubscriptionMessageLive where
  api_key : String
  api_secret : String
  session_token : String
  scrip_code : String
  exchange_code : String
  interval : String
deriving DecidableEq, Repr

/-- Builder for the part_008 subscription message object literal. -/
def subscriptionMessageLive (creds : Credentials) (symbol exchange interval : String) :
    SubscriptionMessageLive :=
  { api_key := creds.api_key
    api_secret := creds.api_secret
    session_token := creds.session_token
    scrip_code := symbol
    exchange_code := exchange
    interval := interval }

/-- The JSON fields of the part_008 subscription message, in the literal's
key order. -/
def subscriptionFieldsLive (m : SubscriptionMessageLive) : List (String × String) :=
  [("api_key", m.api_key), ("api_secret", m.api_secret),
   ("session_token", m.session_token), ("scrip_code", m.scrip_code),
   ("exchange_code", m.exchange_code), ("interval", m.interval)]

/-- The subscription message the market-data component (part_000) sends in
`ws.onopen`: credentials and instrument identity only (the comment in the
source reads "no interval - we want raw ticks"). -/
structure SubscriptionMessageMarket where
  api_key : String
  api_secret : String
  session_token : String
  scrip_code : String
  exchange_code : String
deriving DecidableEq, Repr

/-- Builder for the part_000 subscription message object literal. -/
def subscriptionMessageMarket (creds : Credentials) (ticker exchange : String) :
    SubscriptionMessageMarket :=
  { api_key := creds.api_key
    api_secret := creds.api_secret
    session_token := creds.session_token
    scrip_code := ticker
    exchange_code := exchange }

/-- The JSON fields of the part_000 subscription message, in the literal's
key order. -/
def subscriptionFieldsMarket (m : SubscriptionMessageMarket) : List (String × String) :=
  [("api_key", m.api_key), ("api_secret", m.api_secret),
   ("session_token", m.session_token), ("scrip_code", m.scrip_code),
   ("exchange_code", m.exchange_code)]

/-- An incoming websocket message after `JSON.parse` and discrimination, as
`ws.onmessage` sees it.  `malformed` is a message on which `JSON.parse`
throws; `errorPayload` is a parsed object with a truthy `error` field;
numeric fields carry the result of `parseFloat` (possibly `NaN`); timestamp
fields carry the parsed epoch milliseconds, `none` when missing/empty. -/
inductive InMsg where
  | malformed (raw : String)
  | errorPayload (message : String)
  | connectionStatus (message : String)
  | subscriptionStatus (message : String)
  | heartbeat (message : String)
  | ohlcv (close : JsNum) (volume : JsNum) (datetime : Option Int)
      (stock_code : Option String) (exchange_code : Option String)
  | tickMsg (price : JsNum) (volume : JsNum) (timestamp : Option Int)
      (symbol : String) (exchange : String) (stock_name : Option String)
  | unhandled
deriving DecidableEq, Repr

/-- The React state of LiveChartComponent plus the props the handlers read:
`symbol`/`exchange` props, `hasUserData` (whether the `userData` prop is
present), the display `interval` prop, and the state hooks `isConnected`,
`isLoading`, `error`, `rawTicks`, `aggregatedData`, `lastUpdateTime`. -/
structure ChartState where
  symbol : String
  exchange : String
  hasUserData : Bool
  displayInterval : String
  isConnected : Bool
  isLoading : Bool
  error : Option String
  rawTicks : List TickData
  aggregatedData : List CandleData
  lastUpdateTime : Option Int
deriving DecidableEq, Repr

/-- `arr.slice(-n)`: the at most `n` last elements of an array. -/
def sliceLastN {α : Type} (n : Nat) (l : List α) : List α :=
  l.drop (l.length - n)

/-- `setRawTicks(prev => [...prev, tickData].slice(-1000))`: append one tick
and keep only the last 1000. -/
def appendTick (prevTicks : List TickData) (t : TickData) : List TickData :=
  sliceLastN 1000 (prevTicks ++ [t])

/-- The `ws.onmessage` handler body, followed by the `useEffect` that
recomputes `aggregatedData` whenever `rawTicks` changed.  `now` is the wall
clock at which the message is handled (used for `new Date()` fallbacks and
`setLastUpdateTime(new Date())`). -/
def handleMessage (now : Int) (s : ChartState) : InMsg → ChartState
  | InMsg.malformed _ => s
  | InMsg.errorPayload e => { s with error := some e }
  | InMsg.connectionStatus _ => s
  | InMsg.subscriptionStatus _ => s
  | InMsg.heartbeat _ => s
  | InMsg.ohlcv close volume datetime stock_code exchange_code =>
    let t : TickData :=
      { price := close
        volume := jsOrZero volume
        timestamp := datetime
        symbol := stock_code.getD s.symbol
        exchange := exchange_code.getD s.exchange }
    let rawTicks := appendTick s.rawTicks t
    { s with rawTicks := rawTicks
             aggregatedData := aggregateTicks now rawTicks s.displayInterval
             lastUpdateTime := some now }
  | InMsg.tickMsg price volume timestamp symbol exchange stock_name =>
    let t : TickData :=
      { price := price
        volume := jsOrZero volume
        timestamp := some (timestamp.getD now)
        symbol := symbol
        exchange := exchange
        stock_name := stock_name }
    let rawTicks := appendTick s.rawTicks t
    { s with rawTicks := rawTicks
             aggregatedData := aggregateTicks now rawTicks s.displayInterval
             lastUpdateTime := some now }
  | InMsg.unhandled => s

/-- `disconnectWebSocket`: close and drop the socket, set disconnected,
clear the raw tick buffer and the aggregated candles (`error`,
`lastUpdateTime` and the props are untouched). -/
def disconnectWebSocket (s : ChartState) : ChartState :=
  { s with isConnected := false, rawTicks := [], aggregatedData := [] }

/-- The state writes `connectWebSocket` performs before the socket opens:
`setIsLoading(true); setError(null)` (the tick buffer and candles are left
as they are). -/
def connectWebSocketStart (s : ChartState) : ChartState :=
  { s with isLoading := true, error := none }

/-- The guard of the auto-connect `useEffect` of part_008:
`if (symbol && userData && !isConnected) connectWebSocket()`. -/
def autoConnectFires (s : ChartState) : Bool :=
  s.symbol ≠ "" && s.hasUserData && !s.isConnected

/-- An externally visible action of the component. -/
inductive OutAction where
  | sendSubscription (m : SubscriptionMessageLive)
  | openSocket
deriving DecidableEq, Repr

/-- Whether an action is a send of the subscription message. -/
def isSendSubscription : OutAction → Bool
  | OutAction.sendSubscription _ => true
  | OutAction.openSocket => false

/-- An event delivered to the component: a transport callback, a user
disconnect, or a change of the display-interval prop. -/
inductive ChartEvent where
  | transportOpen
  | transportMessage (m : InMsg) (now : Int)
  | transportError
  | transportClose
  | userDisconnect
  | setDisplayInterval (interval : String) (now : Int)
deriving DecidableEq, Repr

/-- The event handlers of LiveChartComponent: `ws.onopen` (sets connected
and sends the one subscription message), `ws.onmessage`, `ws.onerror` (sets
the error string and disconnected), `ws.onclose` (sets disconnected only),
`disconnectWebSocket`, and an interval prop change (re-aggregation only). -/
def handleEvent (creds : Credentials) (s : ChartState) :
    ChartEvent → ChartState × List OutAction
  | ChartEvent.transportOpen =>
    ({ s with isConnected := true },
      [OutAction.sendSubscription
        (subscriptionMessageLive creds s.symbol s.exchange s.displayInterval)])
  | ChartEvent.transportMessage m now => (handleMessage now s m, [])
  | ChartEvent.transportError =>
    ({ s with error := some "WebSocket connection error", isConnected := false }, [])
  | ChartEvent.transportClose => ({ s with isConnected := false }, [])
  | ChartEvent.userDisconnect => (disconnectWebSocket s, [])
  | ChartEvent.setDisplayInterval interval now =>
    ({ s with displayInterval := interval
              aggregatedData := aggregateTicks now s.rawTicks interval }, [])

/-- One event followed by the auto-connect `useEffect` of part_008: after
the handler runs, if a symbol and user data are present and the component
is not connected, `connectWebSocket()` is invoked — a new socket is opened
without any user action. -/
def stepWithEffect (creds : Credentials) (s : ChartState) (e : ChartEvent) :
    ChartState × List OutAction :=
  let (s', acts) := handleEvent creds s e
  if autoConnectFires s' then (connectWebSocketStart s', acts ++ [OutAction.openSocket])
  else (s', acts)

/-! ## Buffer-bound helpers (C3) -/

/-- Appending one tick to a buffer that is already the last-1000 view of a
history gives the last-1000 view of the extended history. -/
theorem appendTick_sliceLastN (l : List TickData) (t : TickData) :
    appendTick (sliceLastN 1000 l) t = sliceLastN 1000 (l ++ [t]) := by
  unfold appendTick sliceLastN
  rcases le_or_lt l.length 1000 with h | h
  · have h0 : l.length - 1000 = 0 := by omega
    simp [h0]
  · have hlen : (List.drop (l.length - 1000) l).length = 1000 := by
      simp; omega
    have h1 : (List.drop (l.length - 1000) l ++ [t]).length - 1000 = 1 := by
      simp [hlen]
    have h2 : (l ++ [t]).length - 1000 = (l.length - 1000) + 1 := by
      simp; omega
    rw [h1, h2]
    rw [List.drop_append_of_le_length (by rw [hlen]; omega),
        List.drop_append_of_le_length (by omega),
        List.drop_drop]

/-- The whole history folded through `appendTick` is its last-1000 view. -/
theorem foldl_appendTick (ts : List TickData) :
    ∀ l0 : List TickData,
      ts.foldl appendTick (sliceLastN 1000 l0) = sliceLastN 1000 (l0 ++ ts) := by
  induction ts with
  | nil => intro l0; simp
  | cons t ts ih =>
    intro l0
    rw [List.foldl_cons, appendTick_sliceLastN, ih (l0 ++ [t])]
    simp

/-- C3 (confirmed).  The tick buffer never holds more than 1000 ticks:
after appending any sequence of ticks to the empty buffer through
`setRawTicks(prev => [...prev, tick].slice(-1000))`, the buffer is exactly
the most recent 1000 ticks of the sequence, in their original relative
order (the oldest having been evicted first). -/
theorem c3_buffer_bound (ts : List TickData) :
    (ts.foldl appendTick []).length ≤ 1000
    ∧ ts.foldl appendTick [] = sliceLastN 1000 ts := by
  have h : ts.foldl appendTick (sliceLastN 1000 []) = sliceLastN 1000 ([] ++ ts) :=
    foldl_appendTick ts []
  simp only [sliceLastN, List.drop_nil, List.nil_append] at h
  refine ⟨?_, h⟩
  rw [h]
  simp only [sliceLastN, List.length_drop]
  omega

/-- C5 (confirmed).  `disconnectWebSocket` is idempotent, always leaves the
connection state disconnected, clears the tick buffer and the derived
candles, and a subsequent connect for a different symbol still sees an
empty buffer and an empty candle sequence. -/
theorem c5_disconnect_idempotent_clears (s : ChartState) (sym ex : String) :
    disconnectWebSocket (disconnectWebSocket s) = disconnectWebSocket s
    ∧ (disconnectWebSocket s).isConnected = false
    ∧ (disconnectWebSocket s).rawTicks = []
    ∧ (disconnectWebSocket s).aggregatedData = []
    ∧ (connectWebSocketStart
        { disconnectWebSocket s with symbol := sym, exchange := ex }).rawTicks = []
    ∧ (connectWebSocketStart
        { disconnectWebSocket s with symbol := sym, exchange := ex }).aggregatedData = [] :=
  ⟨rfl, rfl, rfl, rfl, rfl, rfl⟩

/-- C8 (confirmed).  A malformed (unparseable) message leaves the component
state exactly unchanged — the buffer survives and a subsequent message is
handled exactly as if the malformed one had never arrived. -/
theorem c8_malformed_message_ignored (s : ChartState) (raw : String)
    (now now2 : Int) (m2 : InMsg) :
    handleMessage now s (InMsg.malformed raw) = s
    ∧ handleMessage now2 (handleMessage now s (InMsg.malformed raw)) m2
        = handleMessage now2 s m2 :=
  ⟨rfl, rfl⟩

/-- C9 (confirmed).  An explicit upstream error payload sets the visible
error state and changes nothing else: tick buffer, aggregated candles and
connection state are untouched. -/
theorem c9_error_payload_frame (s : ChartState) (e : String) (now : Int) :
    handleMessage now s (InMsg.errorPayload e) = { s with error := some e }
    ∧ (handleMessage now s (InMsg.errorPayload e)).rawTicks = s.rawTicks
    ∧ (handleMessage now s (InMsg.errorPayload e)).aggregatedData = s.aggregatedData
    ∧ (handleMessage now s (InMsg.errorPayload e)).isConnected = s.isConnected
    ∧ (handleMessage now s (InMsg.errorPayload e)).error = some e :=
  ⟨rfl, rfl, rfl, rfl, rfl⟩

/-- C10 (confirmed).  A `tick` message whose price did not parse (`NaN`) is
not treated as malformed: a tick with price `NaN` is appended to the buffer;
a non-numeric volume is coerced to `0` before storage; and a `NaN` price
propagates into the open/high/low/close of its bucket's candle. -/
theorem c10_nan_price_tick_stored :
    (∀ (now : Int) (s : ChartState) (v : JsNum) (ts : Option Int)
        (sym ex : String) (sn : Option String),
      (handleMessage now s (InMsg.tickMsg JsNum.nan v ts sym ex sn)).rawTicks
        = appendTick s.rawTicks
            { price := JsNum.nan, volume := jsOrZero v,
              timestamp := some (ts.getD now), symbol := sym, exchange := ex,
              stock_name := sn })
    ∧ (∀ (now : Int) (s : ChartState) (p : JsNum) (ts : Option Int)
        (sym ex : String) (sn : Option String),
      (handleMessage now s (InMsg.tickMsg p JsNum.nan ts sym ex sn)).rawTicks
        = appendTick s.rawTicks
            { price := p, volume := 0, timestamp := some (ts.getD now),
              symbol := sym, exchange := ex, stock_name := sn })
    ∧ aggregateTicks 0
        [{ price := JsNum.nan, volume := 5, timestamp := some 0,
           symbol := "X", exchange := "NSE" }] "1minute"
      = [{ time := 0, «open» := JsNum.nan, high := JsNum.nan, low := JsNum.nan,
           close := JsNum.nan, volume := 5 }] :=
  ⟨fun _ _ _ _ _ _ _ => rfl, fun _ _ _ _ _ _ _ => rfl, by decide⟩

/-! ## Determinism of aggregation (C2) -/

/-- The tick loop of `aggregateTicks` does not read the wall clock when every
tick carries its own timestamp. -/
theorem foldl_insertTick_now_eq (m now1 now2 : Int) (ticks : List TickData)
    (h : ∀ t ∈ ticks, t.timestamp ≠ none) :
    ∀ acc, ticks.foldl (insertTick m now1) acc = ticks.foldl (insertTick m now2) acc := by
  induction ticks with
  | nil => intro acc; rfl
  | cons t ts ih =>
    intro acc
    have ht : t.timestamp ≠ none := h t (List.mem_cons_self t ts)
    have hkey : bucketKey m now1 t = bucketKey m now2 t := by
      unfold bucketKey tickTimestampMs
      cases hts : t.timestamp with
      | none => exact absurd hts ht
      | some v => rfl
    rw [List.foldl_cons, List.foldl_cons]
    rw [show insertTick m now1 acc t = insertTick m now2 acc t by
      unfold insertTick; rw [hkey]]
    exact ih (fun t' ht' => h t' (List.mem_cons_of_mem t ht')) _

/-- C2 (corrected: wall-clock independence needs every buffered tick to
carry a timestamp).  When every tick of the buffer has a stored timestamp —
which the `tick`-message ingestion path always guarantees — `aggregateTicks`
is a pure function of the buffer and the interval: re-running it at any two
wall-clock instants yields identical candle sequences, so repeated
aggregation with no new ticks is idempotent and history-independent. -/
theorem c2_aggregate_deterministic (ticks : List TickData) (interval : String)
    (now1 now2 : Int) (h : ∀ t ∈ ticks, t.timestamp ≠ none) :
    aggregateTicks now1 ticks interval = aggregateTicks now2 ticks interval := by
  unfold aggregateTicks
  rcases Nat.eq_zero_or_pos ticks.length with h0 | h0
  · simp [h0]
  · have hne : ¬ ticks.length = 0 := by omega
    simp only [hne, if_false]
    rw [foldl_insertTick_now_eq (getIntervalMs interval) now1 now2 ticks h []]

/-- Witness for `c2_aggregate_deterministic` at a concrete buffer. -/
theorem c2_aggregate_deterministic_witness :
    aggregateTicks 0
      [{ price := JsNum.num 100, volume := 1, timestamp := some 5000,
         symbol := "X", exchange := "NSE" }] "1minute"
      = aggregateTicks 999999
      [{ price := JsNum.num 100, volume := 1, timestamp := some 5000,
         symbol := "X", exchange := "NSE" }] "1minute" :=
  c2_aggregate_deterministic _ "1minute" 0 999999 (by decide)

/-- C2 counterexample.  A buffered tick whose stored timestamp is missing
(as the `ohlcv` ingestion path can produce when the payload lacks
`datetime`) makes the candle sequence depend on the wall-clock instant at
which aggregation runs: the same buffer and interval give different candles
at `now = 0` and `now = 60000`. -/
theorem c2_wallclock_dependence_counterexample :
    aggregateTicks 0
      [{ price := JsNum.num 100, volume := 1, timestamp := none,
         symbol := "X", exchange := "NSE" }] "1minute"
    ≠ aggregateTicks 60000
      [{ price := JsNum.num 100, volume := 1, timestamp := none,
         symbol := "X", exchange := "NSE" }] "1minute" := by decide

/-! ## Subscription protocol (C4) -/

/-- C4 (corrected: LiveChartComponent's subscription message carries the
interval as a sixth field).  Exactly one subscription message is sent per
connection — on transport open and on no other event, in particular not on
a display-interval change; the message of the market-data component has
exactly the five claimed fields, while LiveChartComponent's message has
those five plus `interval`. -/
theorem c4_subscription_once :
    (∀ (creds : Credentials) (s : ChartState) (e : ChartEvent),
      ((stepWithEffect creds s e).2.countP isSendSubscription)
        = if e = ChartEvent.transportOpen then 1 else 0)
    ∧ (∀ (creds : Credentials) (sym ex i : String),
      (subscriptionFieldsLive (subscriptionMessageLive creds sym ex i)).map Prod.fst
        = ["api_key", "api_secret", "session_token", "scrip_code",
           "exchange_code", "interval"])
    ∧ (∀ (creds : Credentials) (sym ex : String),
      (subscriptionFieldsMarket (subscriptionMessageMarket creds sym ex)).map Prod.fst
        = ["api_key", "api_secret", "session_token", "scrip_code", "exchange_code"]) := by
  refine ⟨?_, fun _ _ _ _ => rfl, fun _ _ _ => rfl⟩
  intro creds s e
  cases e <;>
    simp [stepWithEffect, handleEvent, isSendSubscription] <;>
    split <;>
    simp [isSendSubscription]

/-- C4 counterexample.  The subscription message LiveChartComponent sends on
transport open does not consist of exactly the five claimed fields: it also
carries `interval`. -/
theorem c4_subscription_fields_counterexample :
    (subscriptionFieldsLive
      (subscriptionMessageLive
        { api_key := "k", api_secret := "s", session_token := "t" }
        "RELIANCE" "NSE" "1minute")).map Prod.fst
      ≠ ["api_key", "api_secret", "session_token", "scrip_code", "exchange_code"]
    ∧ (subscriptionFieldsLive
      (subscriptionMessageLive
        { api_key := "k", api_secret := "s", session_token := "t" }
        "RELIANCE" "NSE" "1minute")).map Prod.fst
      = ["api_key", "api_secret", "session_token", "scrip_code",
         "exchange_code", "interval"] := by
  exact ⟨by decide, rfl⟩

/-! ## Transport failure behaviour (C7) -/

/-- C7 (corrected: a transport close surfaces no message, and the
auto-connect effect retries automatically).  A transport error sets the
state disconnected and surfaces the error string; a transport close sets
the state disconnected but leaves the error state untouched; and after
either, the auto-connect effect initiates a fresh connection attempt
exactly when a symbol and user data are present — reconnection is not
manual-only. -/
theorem c7_transport_failure_behavior (creds : Credentials) (s : ChartState) :
    (handleEvent creds s ChartEvent.transportError).1.isConnected = false
    ∧ (handleEvent creds s ChartEvent.transportError).1.error
        = some "WebSocket connection error"
    ∧ (handleEvent creds s ChartEvent.transportClose).1.isConnected = false
    ∧ (handleEvent creds s ChartEvent.transportClose).1.error = s.error
    ∧ ((stepWithEffect creds s ChartEvent.transportError).2.contains OutAction.openSocket
        = (s.symbol ≠ "" && s.hasUserData))
    ∧ ((stepWithEffect creds s ChartEvent.transportClose).2.contains OutAction.openSocket
        = (s.symbol ≠ "" && s.hasUserData)) := by
  refine ⟨rfl, rfl, rfl, rfl, ?_, ?_⟩ <;>
    · simp only [stepWithEffect, handleEvent, autoConnectFires]
      split <;> rename_i hguard <;> simp_all

/-- C7 counterexample.  From a connected state with a selected symbol, a
transport close surfaces no user-visible message, and both a transport
error and a transport close are followed by an automatic new connection
attempt (`connectWebSocket()` run by the effect) with no user action. -/
theorem c7_auto_reconnect_counterexample :
    ((stepWithEffect { api_key := "k", api_secret := "s", session_token := "t" }
        { symbol := "RELIANCE", exchange := "NSE", hasUserData := true,
          displayInterval := "1minute", isConnected := true, isLoading := false,
          error := none, rawTicks := [], aggregatedData := [],
          lastUpdateTime := none }
        ChartEvent.transportClose).1.error = none)
    ∧ ((stepWithEffect { api_key := "k", api_secret := "s", session_token := "t" }
        { symbol := "RELIANCE", exchange := "NSE", hasUserData := true,
          displayInterval := "1minute", isConnected := true, isLoading := false,
          error := none, rawTicks := [], aggregatedData := [],
          lastUpdateTime := none }
        ChartEvent.transportError).2.contains OutAction.openSocket = true)
    ∧ ((stepWithEffect { api_key := "k", api_secret := "s", session_token := "t" }
        { symbol := "RELIANCE", exchange := "NSE", hasUserData := true,
          displayInterval := "1minute", isConnected := true, isLoading := false,
          error := none, rawTicks := [], aggregatedData := [],
          lastUpdateTime := none }
        ChartEvent.transportClose).2.contains OutAction.openSocket = true) := by
  refine ⟨by decide, by decide, by decide⟩

/-! ## Characterisation of the bucket-table fold (C1, C6) -/

/-- Keys of the bucket table after one upsert: unchanged when the key was
present, appended otherwise. -/
theorem upsertBucket_map_fst (acc : List (Int × CandleData)) (k : Int) (t : TickData) :
    (upsertBucket acc k t).map Prod.fst
      = if k ∈ acc.map Prod.fst then acc.map Prod.fst
        else acc.map Prod.fst ++ [k] := by
  induction acc with
  | nil => simp [upsertBucket]
  | cons p rest ih =>
    obtain ⟨k0, c0⟩ := p
    by_cases h : k0 = k
    · subst h
      simp [upsertBucket]
    · simp only [upsertBucket, if_neg h, List.map_cons, ih]
      by_cases hm : k ∈ rest.map Prod.fst <;>
        simp [hm, List.mem_cons, Ne.symm h]

/-- Lookup after one upsert: the upserted key now holds the updated (or
fresh) candle, all other keys are untouched. -/
theorem assocFind_upsertBucket (acc : List (Int × CandleData)) (k k' : Int) (t : TickData) :
    assocFind k (upsertBucket acc k' t)
      = if k' = k then
          some (match assocFind k acc with
                | some c => updateCandle c t
                | none => newCandle k t)
        else assocFind k acc := by
  induction acc with
  | nil =>
    by_cases h : k' = k <;> simp [upsertBucket, assocFind, h]
  | cons p rest ih =>
    obtain ⟨k0, c0⟩ := p
    by_cases h0 : k0 = k'
    · subst h0
      by_cases h : k0 = k
      · subst h
        simp [upsertBucket, assocFind]
      · simp [upsertBucket, assocFind, h]
    · by_cases h : k0 = k
      · subst h
        have h' : k' ≠ k0 := fun hh => h0 hh.symm
        simp [upsertBucket, assocFind, h0, h', Ne.symm h0]
      · simp [upsertBucket, assocFind, h0, h, ih]

/-- Lookup of a key in the folded bucket table: the bucket's ticks, in
arrival order, folded through `updateCandle` on top of either the candle
already stored for that key or a `newCandle` from the bucket's first
tick. -/
theorem assocFind_foldl_insertTick (m now : Int) (ticks : List TickData) :
    ∀ (acc : List (Int × CandleData)) (k : Int),
      assocFind k (ticks.foldl (insertTick m now) acc)
        = match assocFind k acc, ticks.filter (fun t => bucketKey m now t = k) with
          | some c, bs => some (bs.foldl updateCandle c)
          | none, [] => none
          | none, b :: bs => some (bs.foldl updateCandle (newCandle k b)) := by
  induction ticks with
  | nil =>
    intro acc k
    cases h : assocFind k acc <;> simp [h]
  | cons t ts ih =>
    intro acc k
    rw [List.foldl_cons, ih (insertTick m now acc t) k]
    unfold insertTick
    rw [assocFind_upsertBucket]
    by_cases hk : bucketKey m now t = k
    · rw [if_pos hk, List.filter_cons_of_pos (by simp [hk])]
      cases h : assocFind k acc with
      | some c => simp [h, List.foldl_cons]
      | none => simp [h, List.foldl_cons]
    · rw [if_neg hk, List.filter_cons_of_neg (by simp [hk])]

/-- A key is absent from the bucket table iff lookup fails. -/
theorem assocFind_eq_none (k : Int) (l : List (Int × CandleData)) :
    assocFind k l = none ↔ k ∉ l.map Prod.fst := by
  induction l with
  | nil => simp [assocFind]
  | cons p rest ih =>
    obtain ⟨k0, c0⟩ := p
    by_cases h : k0 = k
    · subst h; simp [assocFind]
    · simp only [assocFind, if_neg h, List.map_cons, List.mem_cons, ih]
      constructor
      · rintro hn (hk | hk)
        · exact h hk.symm
        · exact hn hk
      · intro hn hk
        exact hn (Or.inr hk)

/-- In a bucket table with distinct keys, every stored entry is what lookup
returns. -/
theorem assocFind_of_mem_nodup :
    ∀ {l : List (Int × CandleData)}, (l.map Prod.fst).Nodup →
      ∀ {k : Int} {c : CandleData}, (k, c) ∈ l → assocFind k l = some c := by
  intro l
  induction l with
  | nil => intro _ k c hm; simp at hm
  | cons p rest ih =>
    intro hnd k c hm
    obtain ⟨k0, c0⟩ := p
    simp only [List.map_cons, List.nodup_cons] at hnd
    rcases List.mem_cons.mp hm with h | h
    · have hk : k = k0 := congrArg Prod.fst h
      have hc : c = c0 := congrArg Prod.snd h
      subst hk; subst hc
      simp [assocFind]
    · have hk0 : k0 ≠ k := by
        intro hh
        subst hh
        exact hnd.1 (List.mem_map.mpr ⟨(k0, c), h, rfl⟩)
      simp [assocFind, hk0, ih hnd.2 h]

/-- The folded bucket table has pairwise-distinct keys. -/
theorem foldl_insertTick_keys_nodup (m now : Int) (ticks : List TickData) :
    ∀ acc : List (Int × CandleData), (acc.map Prod.fst).Nodup →
      ((ticks.foldl (insertTick m now) acc).map Prod.fst).Nodup := by
  induction ticks with
  | nil => intro acc h; exact h
  | cons t ts ih =>
    intro acc h
    rw [List.foldl_cons]
    apply ih
    unfold insertTick
    rw [upsertBucket_map_fst]
    split
    · exact h
    · rename_i hnotmem
      rw [List.nodup_append]
      refine ⟨h, List.nodup_singleton _, ?_⟩
      intro a ha hak
      rw [List.mem_singleton] at hak
      subst hak
      exact hnotmem ha

/-- The keys of the folded bucket table are exactly the bucket keys that
occur in the buffer. -/
theorem foldl_insertTick_mem_keys (m now : Int) (ticks : List TickData) (k : Int) :
    k ∈ ((ticks.foldl (insertTick m now) []).map Prod.fst)
      ↔ k ∈ ticks.map (bucketKey m now) := by
  have h3 := assocFind_foldl_insertTick m now ticks [] k
  have hnone : assocFind k ([] : List (Int × CandleData)) = none := rfl
  rw [hnone] at h3
  constructor
  · intro hk
    by_contra hnk
    have hfil : ticks.filter (fun t => bucketKey m now t = k) = [] := by
      rw [List.filter_eq_nil_iff]
      intro t ht
      simp only [decide_eq_true_eq]
      intro hh
      exact hnk (List.mem_map.mpr ⟨t, ht, hh⟩)
    rw [hfil] at h3
    exact ((assocFind_eq_none k _).mp h3) hk
  · intro hk
    obtain ⟨t, ht, hkey⟩ := List.mem_map.mp hk
    have hfil : ticks.filter (fun t => bucketKey m now t = k) ≠ [] := by
      intro hh
      rw [List.filter_eq_nil_iff] at hh
      exact hh t ht (by simp [hkey])
    by_contra hnk
    have : assocFind k (ticks.foldl (insertTick m now) []) = none :=
      (assocFind_eq_none k _).mpr hnk
    rw [this] at h3
    cases hf : ticks.filter (fun t => bucketKey m now t = k) with
    | nil => exact hfil hf
    | cons b bs => rw [hf] at h3; simp at h3

/-- Every entry of the folded bucket table is the arrival-order fold of its
bucket's ticks. -/
theorem foldl_insertTick_entry (m now : Int) (ticks : List TickData)
    {k : Int} {c : CandleData}
    (hm : (k, c) ∈ ticks.foldl (insertTick m now) []) :
    ∃ b bs, ticks.filter (fun t => bucketKey m now t = k) = b :: bs
      ∧ c = bs.foldl updateCandle (newCandle k b) := by
  have hnd := foldl_insertTick_keys_nodup m now ticks [] (by simp)
  have hf := assocFind_of_mem_nodup hnd hm
  rw [assocFind_foldl_insertTick m now ticks [] k] at hf
  have h0 : assocFind k ([] : List (Int × CandleData)) = none := rfl
  rw [h0] at hf
  cases hfil : ticks.filter (fun t => bucketKey m now t = k) with
  | nil =>
    rw [hfil] at hf
    exact Option.noConfusion hf
  | cons b bs =>
    rw [hfil] at hf
    refine ⟨b, bs, rfl, ?_⟩
    have hf' : bs.foldl updateCandle (newCandle k b) = c := Option.some_inj.mp hf
    exact hf'.symm

/-- Field-by-field description of the per-bucket accumulation: the `time`
and `open` of the seed survive; `high`/`low` are running `Math.max`/
`Math.min`; `close` is the last price; `volume` adds up. -/
theorem foldl_updateCandle (rest : List TickData) :
    ∀ c : CandleData, rest.foldl updateCandle c =
      { time := c.time
        «open» := c.«open»
        high := (rest.map TickData.price).foldl jmax c.high
        low := (rest.map TickData.price).foldl jmin c.low
        close := (rest.map TickData.price).getLastD c.close
        volume := c.volume + (rest.map TickData.volume).sum } := by
  induction rest with
  | nil => intro c; cases c; simp
  | cons t rest ih =>
    intro c
    rw [List.foldl_cons, ih (updateCandle c t)]
    simp only [updateCandle, List.map_cons, List.foldl_cons, List.getLastD_cons,
      List.sum_cons]
    congr 1
    rw [add_assoc]

/-- The code's per-bucket fold computes exactly the claim's candle. -/
theorem foldl_updateCandle_eq_specCandle (k : Int) (t0 : TickData)
    (rest : List TickData) :
    rest.foldl updateCandle (newCandle k t0) = specCandle k t0 rest := by
  rw [foldl_updateCandle]
  rfl

/-- The candles stored in the folded bucket table are the claim's candles of
their keys. -/
theorem foldl_insertTick_snd_map (m now : Int) (ticks : List TickData) :
    (ticks.foldl (insertTick m now) []).map Prod.snd
      = ((ticks.foldl (insertTick m now) []).map Prod.fst).map
          (specBucketCandle m now ticks) := by
  rw [List.map_map]
  apply List.map_congr_left
  intro p hp
  obtain ⟨k, c⟩ := p
  obtain ⟨b, bs, hfil, hc⟩ := foldl_insertTick_entry m now ticks hp
  simp only [Function.comp_apply]
  show c = specBucketCandle m now ticks k
  rw [specBucketCandle, hfil, hc]
  exact foldl_updateCandle_eq_specCandle k b bs

/-- Every display interval's millisecond width is a positive multiple of
1000. -/
theorem getIntervalMs_factor (interval : String) :
    ∃ c : Int, 0 < c ∧ getIntervalMs interval = 1000 * c := by
  unfold getIntervalMs
  split_ifs
  · exact ⟨60, by norm_num, by norm_num⟩
  · exact ⟨300, by norm_num, by norm_num⟩
  · exact ⟨1800, by norm_num, by norm_num⟩
  · exact ⟨86400, by norm_num, by norm_num⟩
  · exact ⟨60, by norm_num, by norm_num⟩

/-- On bucket keys (multiples of an interval width that is itself a
positive multiple of 1000), `time = Math.floor(key / 1000)` is strictly
monotone, so candle order by `time` is bucket order by `bucketStart`. -/
theorem fdiv_thousand_strictMono {m : Int} (c : Int) (_hc : 0 < c)
    (hm : m = 1000 * c) {k1 k2 : Int}
    (h1 : ∃ q, k1 = q * m) (h2 : ∃ q, k2 = q * m) (hlt : k1 < k2) :
    Int.fdiv k1 1000 < Int.fdiv k2 1000 := by
  obtain ⟨q1, rfl⟩ := h1
  obtain ⟨q2, rfl⟩ := h2
  subst hm
  have e1 : q1 * (1000 * c) = q1 * c * 1000 := by ring
  have e2 : q2 * (1000 * c) = q2 * c * 1000 := by ring
  rw [e1, e2] at hlt ⊢
  rw [Int.mul_fdiv_cancel _ (by norm_num), Int.mul_fdiv_cancel _ (by norm_num)]
  exact lt_of_mul_lt_mul_right hlt (by norm_num)

/-- The claim's candle for a key has `time = Math.floor(key / 1000)`. -/
theorem specBucketCandle_time (m now : Int) (ticks : List TickData) (k : Int) :
    (specBucketCandle m now ticks k).time = Int.fdiv k 1000 := by
  unfold specBucketCandle
  split
  · rfl
  · rfl

/-- The sorted bucket-table candles are exactly the claim's candles of the
sorted distinct bucket keys (for any interval width that is a positive
multiple of 1000). -/
theorem sorted_candles_eq (now m : Int) (ticks : List TickData)
    (hfac : ∃ c : Int, 0 < c ∧ m = 1000 * c) :
    List.insertionSort (fun a b => a.time ≤ b.time)
        ((ticks.foldl (insertTick m now) []).map Prod.snd)
      = (List.insertionSort (fun a b => a ≤ b)
          ((ticks.map (bucketKey m now)).dedup)).map
          (specBucketCandle m now ticks) := by
  obtain ⟨c, hc, hm⟩ := hfac
  haveI hTot : IsTotal CandleData (fun a b : CandleData => a.time ≤ b.time) :=
    ⟨fun a b => le_total a.time b.time⟩
  haveI hTrans : IsTrans CandleData (fun a b : CandleData => a.time ≤ b.time) :=
    ⟨fun _ _ _ h1 h2 => le_trans h1 h2⟩
  haveI hAnti : IsAntisymm CandleData (fun a b : CandleData => a.time < b.time) :=
    ⟨fun _ _ h1 h2 => absurd (h1.trans h2) (lt_irrefl _)⟩
  have hndB : ((ticks.foldl (insertTick m now) []).map Prod.fst).Nodup :=
    foldl_insertTick_keys_nodup m now ticks [] (by simp)
  have hKnodup : (List.insertionSort (fun a b => a ≤ b)
      ((ticks.map (bucketKey m now)).dedup)).Nodup :=
    (List.perm_insertionSort _ _).symm.nodup (List.nodup_dedup _)
  have hpermkeys : ((ticks.foldl (insertTick m now) []).map Prod.fst).Perm
      (List.insertionSort (fun a b => a ≤ b) ((ticks.map (bucketKey m now)).dedup)) := by
    have h1 : ((ticks.foldl (insertTick m now) []).map Prod.fst).Perm
        ((ticks.map (bucketKey m now)).dedup) := by
      rw [List.perm_ext_iff_of_nodup hndB (List.nodup_dedup _)]
      intro a
      rw [List.mem_dedup]
      exact foldl_insertTick_mem_keys m now ticks a
    exact h1.trans (List.perm_insertionSort _ _).symm
  have hperm : (List.insertionSort (fun a b => a.time ≤ b.time)
      ((ticks.foldl (insertTick m now) []).map Prod.snd)).Perm
      ((List.insertionSort (fun a b => a ≤ b)
        ((ticks.map (bucketKey m now)).dedup)).map (specBucketCandle m now ticks)) := by
    refine (List.perm_insertionSort _ _).trans ?_
    rw [foldl_insertTick_snd_map m now ticks]
    exact hpermkeys.map _
  have hmult : ∀ k ∈ List.insertionSort (fun a b => a ≤ b)
      ((ticks.map (bucketKey m now)).dedup), ∃ q, k = q * m := by
    intro k hk
    have hk2 : k ∈ ticks.map (bucketKey m now) :=
      List.mem_dedup.mp ((List.perm_insertionSort _ _).mem_iff.mp hk)
    obtain ⟨t, _, hkey⟩ := List.mem_map.mp hk2
    exact ⟨Int.fdiv (tickTimestampMs now t) m, by rw [← hkey]; rfl⟩
  have hKsorted : List.Pairwise (fun a b : Int => a ≤ b)
      (List.insertionSort (fun a b => a ≤ b) ((ticks.map (bucketKey m now)).dedup)) :=
    List.sorted_insertionSort _ _
  have hKne : List.Pairwise (fun a b : Int => a ≠ b)
      (List.insertionSort (fun a b => a ≤ b) ((ticks.map (bucketKey m now)).dedup)) :=
    hKnodup
  have hKlt : List.Pairwise (fun a b : Int => a < b)
      (List.insertionSort (fun a b => a ≤ b) ((ticks.map (bucketKey m now)).dedup)) :=
    (hKsorted.and hKne).imp (fun h => lt_of_le_of_ne h.1 h.2)
  have hsortR : List.Pairwise (fun a b : CandleData => a.time < b.time)
      ((List.insertionSort (fun a b => a ≤ b)
        ((ticks.map (bucketKey m now)).dedup)).map (specBucketCandle m now ticks)) := by
    rw [List.pairwise_map]
    refine List.Pairwise.imp_of_mem ?_ hKlt
    intro a b ha hb hab
    rw [specBucketCandle_time, specBucketCandle_time]
    exact fdiv_thousand_strictMono c hc hm (hmult a ha) (hmult b hb) hab
  have hRtimes : (((List.insertionSort (fun a b => a ≤ b)
      ((ticks.map (bucketKey m now)).dedup)).map
        (specBucketCandle m now ticks)).map CandleData.time).Nodup :=
    List.pairwise_map.mpr (hsortR.imp (fun h => ne_of_lt h))
  have hLtimes : ((List.insertionSort (fun a b => a.time ≤ b.time)
      ((ticks.foldl (insertTick m now) []).map Prod.snd)).map CandleData.time).Nodup :=
    (hperm.map CandleData.time).symm.nodup hRtimes
  have hLne : List.Pairwise (fun a b : CandleData => a.time ≠ b.time)
      (List.insertionSort (fun a b => a.time ≤ b.time)
        ((ticks.foldl (insertTick m now) []).map Prod.snd)) :=
    List.pairwise_map.mp hLtimes
  have hsortLle : List.Pairwise (fun a b : CandleData => a.time ≤ b.time)
      (List.insertionSort (fun a b => a.time ≤ b.time)
        ((ticks.foldl (insertTick m now) []).map Prod.snd)) :=
    List.sorted_insertionSort _ _
  have hsortL : List.Pairwise (fun a b : CandleData => a.time < b.time)
      (List.insertionSort (fun a b => a.time ≤ b.time)
        ((ticks.foldl (insertTick m now) []).map Prod.snd)) :=
    (hsortLle.and hLne).imp (fun h => lt_of_le_of_ne h.1 h.2)
  exact List.eq_of_perm_of_sorted hperm hsortL hsortR

/-- `aggregateTicks` computes exactly the specification-side aggregation:
one candle per non-empty bucket, in ascending bucket order, with the
claim's open/high/low/close/volume (open/close in arrival order). -/
theorem aggregateTicks_eq_specAggregate (now : Int) (ticks : List TickData)
    (interval : String) :
    aggregateTicks now ticks interval = specAggregate now ticks interval := by
  rcases ticks with _ | ⟨t0, ts⟩
  · rfl
  · show List.insertionSort (fun a b => a.time ≤ b.time)
        (((t0 :: ts).foldl (insertTick (getIntervalMs interval) now) []).map Prod.snd)
      = (List.insertionSort (fun a b => a ≤ b)
          (((t0 :: ts).map (bucketKey (getIntervalMs interval) now)).dedup)).map
          (specBucketCandle (getIntervalMs interval) now (t0 :: ts))
    exact sorted_candles_eq now (getIntervalMs interval) (t0 :: ts)
      (getIntervalMs_factor interval)

/-- C1 (corrected: open/close come from the bucket's first/last tick in
arrival order, not in chronological order).  `aggregateTicks` buckets every
tick at `bucketStart = Math.floor(timestamp / intervalMs) * intervalMs` and
produces, for each non-empty bucket in ascending bucket order, exactly one
candle with `open`/`close` the first/last tick of the bucket in arrival
order, `high`/`low` the price extremes and `volume` the volume sum
(`specAggregate`); the claim's 09:15:05 (100) / 09:15:40 (105) / 09:16:10
(98) one-minute scenario yields exactly the two claimed candles. -/
theorem c1_aggregate_bucket_correct :
    (∀ (now : Int) (ticks : List TickData) (interval : String),
      aggregateTicks now ticks interval = specAggregate now ticks interval)
    ∧ (∀ v1 v2 v3 : ℚ,
      aggregateTicks 0
        [{ price := JsNum.num 100, volume := v1, timestamp := some 33305000,
           symbol := "X", exchange := "NSE" },
         { price := JsNum.num 105, volume := v2, timestamp := some 33340000,
           symbol := "X", exchange := "NSE" },
         { price := JsNum.num 98, volume := v3, timestamp := some 33370000,
           symbol := "X", exchange := "NSE" }] "1minute"
        = [{ time := 33300, «open» := JsNum.num 100, high := JsNum.num 105,
             low := JsNum.num 100, close := JsNum.num 105, volume := v1 + v2 },
           { time := 33360, «open» := JsNum.num 98, high := JsNum.num 98,
             low := JsNum.num 98, close := JsNum.num 98, volume := v3 }]) :=
  ⟨aggregateTicks_eq_specAggregate, fun _ _ _ => rfl⟩

/-- C1 counterexample.  When the two ticks of a bucket arrive out of
chronological order — prices 105 (timestamp 00:00:40) then 100 (timestamp
00:00:05) — the candle's `open` is 105, the price of the tick that arrived
first, not the price (100) of the chronologically-first tick of the bucket,
and `close` is 100 rather than the chronologically-last price 105. -/
theorem c1_chronological_order_counterexample :
    aggregateTicks 0
      [{ price := JsNum.num 105, volume := 1, timestamp := some 40000,
         symbol := "X", exchange := "NSE" },
       { price := JsNum.num 100, volume := 1, timestamp := some 5000,
         symbol := "X", exchange := "NSE" }] "1minute"
      = [{ time := 0, «open» := JsNum.num 105, high := JsNum.num 105,
           low := JsNum.num 100, close := JsNum.num 100, volume := 1 + 1 }]
    ∧ JsNum.num 105 ≠ JsNum.num 100 :=
  ⟨rfl, by decide⟩

/-! ## Candle price invariants (C6) -/

/-- JS `<=` is reflexive on non-`NaN` numbers. -/
theorem jsLe_refl {p : JsNum} (hp : p ≠ JsNum.nan) : jsLe p p = true := by
  cases p with
  | nan => exact absurd rfl hp
  | num a => simp [jsLe]

/-- A running `Math.max` over non-`NaN` prices only grows. -/
theorem jsLe_foldl_jmax (ps : List JsNum) :
    ∀ p p' : JsNum, jsLe p p' = true → (∀ q ∈ ps, q ≠ JsNum.nan) →
      jsLe p (ps.foldl jmax p') = true := by
  induction ps with
  | nil => intro p p' h _; exact h
  | cons q ps ih =>
    intro p p' h hq
    rw [List.foldl_cons]
    refine ih p (jmax p' q) ?_ (fun r hr => hq r (List.mem_cons_of_mem q hr))
    cases p with
    | nan => simp [jsLe] at h
    | num a =>
      cases p' with
      | nan => simp [jsLe] at h
      | num b =>
        cases hq0 : q with
        | nan => exact absurd hq0 (hq q (List.mem_cons_self q ps))
        | num c =>
          simp only [jsLe, jmax, decide_eq_true_eq] at h ⊢
          exact le_trans h (le_max_left b c)

/-- Every price folded into a running `Math.max` over non-`NaN` prices is
below the result. -/
theorem jsLe_mem_foldl_jmax (ps : List JsNum) :
    ∀ p' : JsNum, p' ≠ JsNum.nan → (∀ q ∈ ps, q ≠ JsNum.nan) →
      ∀ x ∈ ps, jsLe x (ps.foldl jmax p') = true := by
  induction ps with
  | nil => intro _ _ _ x hx; simp at hx
  | cons q ps ih =>
    intro p' hp' hq x hx
    rw [List.foldl_cons]
    have hqn : q ≠ JsNum.nan := hq q (List.mem_cons_self q ps)
    have hrest : ∀ r ∈ ps, r ≠ JsNum.nan :=
      fun r hr => hq r (List.mem_cons_of_mem q hr)
    have hmaxn : jmax p' q ≠ JsNum.nan := by
      cases p' with
      | nan => exact absurd rfl hp'
      | num b =>
        cases q with
        | nan => exact absurd rfl hqn
        | num c => simp [jmax]
    rcases List.mem_cons.mp hx with hxq | hx
    · subst hxq
      refine jsLe_foldl_jmax ps x (jmax p' x) ?_ hrest
      cases x with
      | nan => exact absurd rfl hqn
      | num c =>
        cases p' with
        | nan => exact absurd rfl hp'
        | num b =>
          simp only [jsLe, jmax, decide_eq_true_eq]
          exact le_max_right b c
    · exact ih (jmax p' q) hmaxn hrest x hx

/-- A running `Math.min` over non-`NaN` prices only shrinks. -/
theorem foldl_jmin_jsLe (ps : List JsNum) :
    ∀ p p' : JsNum, jsLe p' p = true → (∀ q ∈ ps, q ≠ JsNum.nan) →
      jsLe (ps.foldl jmin p') p = true := by
  induction ps with
  | nil => intro p p' h _; exact h
  | cons q ps ih =>
    intro p p' h hq
    rw [List.foldl_cons]
    refine ih p (jmin p' q) ?_ (fun r hr => hq r (List.mem_cons_of_mem q hr))
    cases p' with
    | nan => simp [jsLe] at h
    | num b =>
      cases p with
      | nan => simp [jsLe] at h
      | num a =>
        cases hq0 : q with
        | nan => exact absurd hq0 (hq q (List.mem_cons_self q ps))
        | num c =>
          simp only [jsLe, jmin, decide_eq_true_eq] at h ⊢
          exact le_trans (min_le_left b c) h

/-- The running `Math.min` over non-`NaN` prices is below every folded
price. -/
theorem foldl_jmin_jsLe_mem (ps : List JsNum) :
    ∀ p' : JsNum, p' ≠ JsNum.nan → (∀ q ∈ ps, q ≠ JsNum.nan) →
      ∀ x ∈ ps, jsLe (ps.foldl jmin p') x = true := by
  induction ps with
  | nil => intro _ _ _ x hx; simp at hx
  | cons q ps ih =>
    intro p' hp' hq x hx
    rw [List.foldl_cons]
    have hqn : q ≠ JsNum.nan := hq q (List.mem_cons_self q ps)
    have hrest : ∀ r ∈ ps, r ≠ JsNum.nan :=
      fun r hr => hq r (List.mem_cons_of_mem q hr)
    have hminn : jmin p' q ≠ JsNum.nan := by
      cases p' with
      | nan => exact absurd rfl hp'
      | num b =>
        cases q with
        | nan => exact absurd rfl hqn
        | num c => simp [jmin]
    rcases List.mem_cons.mp hx with hxq | hx
    · subst hxq
      refine foldl_jmin_jsLe ps x (jmin p' x) ?_ hrest
      cases x with
      | nan => exact absurd rfl hqn
      | num c =>
        cases p' with
        | nan => exact absurd rfl hp'
        | num b =>
          simp only [jsLe, jmin, decide_eq_true_eq]
          exact min_le_right b c
    · exact ih (jmin p' q) hminn hrest x hx

/-- The last element of a list with a default is the default or a member. -/
theorem getLastD_mem_or (l : List JsNum) (d : JsNum) :
    l.getLastD d = d ∨ l.getLastD d ∈ l := by
  induction l generalizing d with
  | nil => exact Or.inl rfl
  | cons a l ih =>
    rw [List.getLastD_cons]
    rcases ih a with h | h
    · exact Or.inr (by rw [h]; exact List.mem_cons_self a l)
    · exact Or.inr (List.mem_cons_of_mem a h)

/-- C6 (corrected: the invariant needs every buffered price to be numeric;
a `NaN` price — which the ingestion path stores unvalidated — falsifies
every JS comparison).  For every buffer whose tick prices are all numeric
and every interval, every produced candle satisfies `high ≥ open`,
`high ≥ close`, `low ≤ open` and `low ≤ close` under the JS comparison. -/
theorem c6_candle_price_invariant (now : Int) (ticks : List TickData)
    (interval : String) (h : ∀ t ∈ ticks, t.price ≠ JsNum.nan) :
    ∀ c ∈ aggregateTicks now ticks interval,
      jsLe c.«open» c.high = true ∧ jsLe c.close c.high = true
      ∧ jsLe c.low c.«open» = true ∧ jsLe c.low c.close = true := by
  intro c hc
  rw [aggregateTicks_eq_specAggregate now ticks interval] at hc
  unfold specAggregate at hc
  obtain ⟨k, hk, hck⟩ := List.mem_map.mp hc
  have hkmem : k ∈ ticks.map (bucketKey (getIntervalMs interval) now) :=
    List.mem_dedup.mp ((List.perm_insertionSort _ _).mem_iff.mp hk)
  obtain ⟨t, ht, hkey⟩ := List.mem_map.mp hkmem
  cases hfil : ticks.filter (fun t => bucketKey (getIntervalMs interval) now t = k) with
  | nil =>
    exfalso
    rw [List.filter_eq_nil_iff] at hfil
    exact hfil t ht (by simp [hkey])
  | cons b bs =>
    have hcc : c = specCandle k b bs := by
      rw [← hck]
      unfold specBucketCandle
      rw [hfil]
    have hsub : ∀ t' ∈ b :: bs, t'.price ≠ JsNum.nan := by
      intro t' ht'
      have ht'' : t' ∈ ticks.filter
          (fun t => bucketKey (getIntervalMs interval) now t = k) := by
        rw [hfil]; exact ht'
      exact h t' (List.mem_of_mem_filter ht'')
    have hbn : b.price ≠ JsNum.nan := hsub b (List.mem_cons_self b bs)
    have hpsn : ∀ q ∈ bs.map TickData.price, q ≠ JsNum.nan := by
      intro q hq
      obtain ⟨t', ht', rfl⟩ := List.mem_map.mp hq
      exact hsub t' (List.mem_cons_of_mem b ht')
    subst hcc
    refine ⟨?_, ?_, ?_, ?_⟩
    · exact jsLe_foldl_jmax (bs.map TickData.price) b.price b.price
        (jsLe_refl hbn) hpsn
    · show jsLe ((bs.map TickData.price).getLastD b.price)
        ((bs.map TickData.price).foldl jmax b.price) = true
      rcases getLastD_mem_or (bs.map TickData.price) b.price with hl | hl
      · rw [hl]
        exact jsLe_foldl_jmax (bs.map TickData.price) b.price b.price
          (jsLe_refl hbn) hpsn
      · exact jsLe_mem_foldl_jmax (bs.map TickData.price) b.price hbn hpsn _ hl
    · exact foldl_jmin_jsLe (bs.map TickData.price) b.price b.price
        (jsLe_refl hbn) hpsn
    · show jsLe ((bs.map TickData.price).foldl jmin b.price)
        ((bs.map TickData.price).getLastD b.price) = true
      rcases getLastD_mem_or (bs.map TickData.price) b.price with hl | hl
      · rw [hl]
        exact foldl_jmin_jsLe (bs.map TickData.price) b.price b.price
          (jsLe_refl hbn) hpsn
      · exact foldl_jmin_jsLe_mem (bs.map TickData.price) b.price hbn hpsn _ hl

/-- Witness for `c6_candle_price_invariant` at a concrete one-tick buffer:
its single candle (all fields 100) satisfies the four comparisons. -/
theorem c6_candle_price_invariant_witness :
    jsLe (JsNum.num 100) (JsNum.num 100) = true
    ∧ jsLe (JsNum.num 100) (JsNum.num 100) = true
    ∧ jsLe (JsNum.num 100) (JsNum.num 100) = true
    ∧ jsLe (JsNum.num 100) (JsNum.num 100) = true :=
  c6_candle_price_invariant 0
    [{ price := JsNum.num 100, volume := 1, timestamp := some 0,
       symbol := "X", exchange := "NSE" }] "1minute" (by decide)
    { time := 0, «open» := JsNum.num 100, high := JsNum.num 100,
      low := JsNum.num 100, close := JsNum.num 100, volume := 1 } (by decide)

/-- C6 counterexample.  A buffer holding one tick whose price is `NaN` (as
the unvalidated ingestion path can store) produces a candle whose four
price fields are all `NaN`, and `NaN ≥ NaN` is false under the JS
comparison — `high ≥ open` fails for this candle. -/
theorem c6_nan_candle_counterexample :
    aggregateTicks 0
      [{ price := JsNum.nan, volume := 2, timestamp := some 0,
         symbol := "X", exchange := "NSE" }] "1minute"
      = [{ time := 0, «open» := JsNum.nan, high := JsNum.nan, low := JsNum.nan,
           close := JsNum.nan, volume := 2 }]
    ∧ jsLe JsNum.nan JsNum.nan = false :=
  ⟨by decide, rfl⟩
